import Mathlib

/- Shallow embedding of the SEC-filings AI-paragraph pipeline
(`src/config.py`, `src/sec_fetch.py`, `src/parse_filings.py`).

Strings are modelled as `List Char`; Python text operations (lower-casing,
substring tests, whitespace splitting, regex-based segmentation) are
translated operationally from the source.
-/

/-- ASCII whitespace characters recognized by Python's `\s` / `str.strip()` /
`str.split()` (space, tab, newline, carriage return, form feed, vertical tab). -/
def isWS (c : Char) : Bool :=
  c = ' ' ∨ c = '\t' ∨ c = '\n' ∨ c = '\r' ∨ c = '\x0b' ∨ c = '\x0c'

/-- Embeds `paragraph.lower()` — per-character lower-casing. -/
def lowerStr (l : List Char) : List Char := l.map Char.toLower

/-- Python's `needle in haystack` substring test: `needle` occurs contiguously
in `haystack`. -/
def substrB (needle haystack : List Char) : Bool :=
  haystack.tails.any (fun t => needle.isPrefixOf t)

/-- Embeds `config.AI_KEYWORDS` — the fixed ordered keyword list from `src/config.py`. -/
def AI_KEYWORDS : List (List Char) :=
  [ "artificial intelligence".toList
  , "machine learning".toList
  , "deep learning".toList
  , "neural network".toList
  , "neural networks".toList
  , "large language model".toList
  , "large language models".toList
  , "llm".toList
  , "llms".toList
  , "generative ai".toList
  , "gen ai".toList
  , "foundation model".toList
  , "foundation models".toList
  , "computer vision".toList
  , "reinforcement learning".toList
  , "ai-powered".toList
  , "ai powered".toList
  , "ai-driven".toList
  , "ai driven".toList
  , "predictive analytics".toList
  , "algorithmic trading".toList ]

/-- The `for kw in AI_KEYWORDS` loop body of `paragraph_contains_ai`:
first keyword in list order that is a substring of the (already lowered)
paragraph text. -/
def findKw (lower : List Char) : List (List Char) → Bool × Option (List Char)
  | [] => (false, none)
  | kw :: rest => if substrB kw lower then (true, some kw) else findKw lower rest

/-- Embeds `parse_filings.paragraph_contains_ai`: lower-case the paragraph, then scan
the keyword list in order and return `(True, kw)` for the first substring
match, else `(False, None)`. -/
def paragraph_contains_ai (p : List Char) : Bool × Option (List Char) :=
  findKw (lowerStr p) AI_KEYWORDS

-- ## Substring test is the infix relation

theorem substrB_correct (needle haystack : List Char) :
    substrB needle haystack = true ↔ needle <:+: haystack := by
  unfold substrB
  rw [List.any_eq_true]
  constructor
  · rintro ⟨t, ht, hpre⟩
    rw [List.mem_tails] at ht
    exact List.infix_iff_prefix_suffix.mpr
      ⟨t, List.isPrefixOf_iff_prefix.mp hpre, ht⟩
  · intro h
    rcases List.infix_iff_prefix_suffix.mp h with ⟨t, hpre, hsuf⟩
    exact ⟨t, (List.mem_tails _ _).mpr hsuf, List.isPrefixOf_iff_prefix.mpr hpre⟩

-- ## Generic facts about the keyword scan

theorem findKw_none (lower : List Char) (kws : List (List Char))
    (h : ∀ kw ∈ kws, substrB kw lower = false) :
    findKw lower kws = (false, none) := by
  induction kws with
  | nil => rfl
  | cons kw rest ih =>
      have hkw := h kw (List.mem_cons_self kw rest)
      have hstep : findKw lower (kw :: rest)
          = if substrB kw lower then (true, some kw) else findKw lower rest := rfl
      rw [hstep, if_neg (by simp [hkw])]
      exact ih fun k hk => h k (List.mem_cons_of_mem kw hk)

theorem findKw_first (lower : List Char) (kws : List (List Char))
    (i : Fin kws.length)
    (hmatch : substrB (kws.get i) lower = true)
    (hfirst : ∀ j : Fin kws.length, j.val < i.val → substrB (kws.get j) lower = false) :
    findKw lower kws = (true, some (kws.get i)) := by
  induction kws with
  | nil => exact absurd i.isLt (by simp)
  | cons kw rest ih =>
      rcases i with ⟨iv, hi⟩
      have hstep : findKw lower (kw :: rest)
          = if substrB kw lower then (true, some kw) else findKw lower rest := rfl
      cases iv with
      | zero =>
          show findKw lower (kw :: rest) = (true, some kw)
          have hm : substrB kw lower = true := hmatch
          rw [hstep, if_pos (by simp [hm])]
      | succ n =>
          have h0 : substrB kw lower = false := hfirst ⟨0, Nat.succ_pos _⟩ (Nat.succ_pos n)
          rw [hstep, if_neg (by simp [h0])]
          have hi' : n < rest.length := Nat.lt_of_succ_lt_succ hi
          exact ih ⟨n, hi'⟩ hmatch fun j hj =>
            hfirst ⟨j.val + 1, Nat.succ_lt_succ j.isLt⟩ (Nat.succ_lt_succ hj)

/-- C1: for every paragraph text, `paragraph_contains_ai` returns
`(true, kw)` where `kw` is the first keyword in `AI_KEYWORDS` list order that
is a substring of the lower-cased paragraph (earlier list entries win even
when another matching keyword occurs earlier in the text), and returns
`(false, none)` when no keyword is a substring of the lower-cased paragraph;
moreover every configured keyword is already lower-case, so matching against
the lower-cased paragraph is exactly case-insensitive matching. -/
theorem C1_classifier_first_keyword (p : List Char) :
    ((∀ kw ∈ AI_KEYWORDS, substrB kw (lowerStr p) = false) →
        paragraph_contains_ai p = (false, none))
    ∧ (∀ i : Fin AI_KEYWORDS.length,
        substrB (AI_KEYWORDS.get i) (lowerStr p) = true →
        (∀ j : Fin AI_KEYWORDS.length, j.val < i.val →
            substrB (AI_KEYWORDS.get j) (lowerStr p) = false) →
        paragraph_contains_ai p = (true, some (AI_KEYWORDS.get i)))
    ∧ (∀ kw ∈ AI_KEYWORDS, lowerStr kw = kw) := by
  refine ⟨fun h => findKw_none _ _ h,
          fun i hm hf => findKw_first _ _ i hm hf, ?_⟩
  decide

-- ## Text segmentation (`parse_filings.split_into_paragraphs`)

/-- Match the regex `\n\s*\n` at a position whose first `\n` has just been
consumed: `rest` is the text after that first newline.  The greedy `\s*`
(with backtracking into the final `\n`) consumes whitespace up to the last
newline inside the maximal whitespace run.  Returns the remainder after the
separator, or `none` when no further newline occurs in the whitespace run. -/
def matchBlankSep (rest : List Char) : Option (List Char) :=
  let ws := rest.takeWhile isWS
  let t := ws.reverse.dropWhile (fun c => c ≠ '\n')
  if t.isEmpty then none
  else some (rest.drop t.length)

theorem matchBlankSep_length_le {rest rest2 : List Char}
    (h : matchBlankSep rest = some rest2) : rest2.length ≤ rest.length := by
  simp only [matchBlankSep] at h
  split at h
  · exact absurd h (by simp)
  · simp only [Option.some.injEq] at h
    subst h
    simp [List.length_drop]

/-- The scanning loop of `re.split(r"\n\s*\n", text)`: `acc` holds the
current segment's characters in reverse. -/
def splitBlankAux (acc text : List Char) : List (List Char) :=
  match text with
  | [] => [acc.reverse]
  | c :: rest =>
    if c = '\n' then
      match h : matchBlankSep rest with
      | some rest2 => acc.reverse :: splitBlankAux [] rest2
      | none => splitBlankAux (c :: acc) rest
    else splitBlankAux (c :: acc) rest
termination_by text.length
decreasing_by
  · have := matchBlankSep_length_le h
    simp only [List.length_cons]
    omega
  · simp only [List.length_cons]; omega
  · simp only [List.length_cons]; omega

/-- Embeds `re.split(r"\n\s*\n", text)` — first-stage split on blank lines. -/
def splitBlank (text : List Char) : List (List Char) := splitBlankAux [] text

/-- Sentence-ending punctuation of the lookbehind `(?<=[.!?])`. -/
def isSentEnd (c : Char) : Bool := c = '.' ∨ c = '!' ∨ c = '?'

/-- The scanning loop of `re.split(r"(?<=[.!?])\s{2,}", p)`: a separator is a
maximal whitespace run of length at least two immediately after a
sentence-ending punctuation mark (which stays with the preceding segment,
the lookbehind being zero-width). -/
def splitSentAux (acc text : List Char) : List (List Char) :=
  match text with
  | [] => [acc.reverse]
  | c :: rest =>
    if isSentEnd c then
      if 2 ≤ (rest.takeWhile isWS).length then
        (c :: acc).reverse :: splitSentAux [] (rest.drop (rest.takeWhile isWS).length)
      else splitSentAux (c :: acc) rest
    else splitSentAux (c :: acc) rest
termination_by text.length
decreasing_by
  · simp only [List.length_cons]
    have : (rest.drop (rest.takeWhile isWS).length).length ≤ rest.length := by
      simp [List.length_drop]
    omega
  · simp only [List.length_cons]; omega
  · simp only [List.length_cons]; omega

/-- Embeds `re.split(r"(?<=[.!?])\s{2,}", p)` — second-stage sentence split. -/
def splitSent (p : List Char) : List (List Char) := splitSentAux [] p

/-- Python `str.strip()`, left half: drop leading whitespace. -/
def stripL (l : List Char) : List Char := l.dropWhile isWS

/-- Python `str.strip()`, right half: drop trailing whitespace. -/
def stripR (l : List Char) : List Char := (l.reverse.dropWhile isWS).reverse

/-- Python `str.strip()`: drop leading and trailing whitespace. -/
def strip (l : List Char) : List Char := stripR (stripL l)

/-- Embeds `parse_filings.split_into_paragraphs`: split on blank lines, strip each
block and drop empties, further split each block on sentence boundaries,
strip each chunk and drop empties, in order. -/
def split_into_paragraphs (text : List Char) : List (List Char) :=
  ((((splitBlank text).map strip).filter (fun p => !p.isEmpty)).map
      (fun p => ((splitSent p).map strip).filter (fun c => !c.isEmpty))).flatten

-- ## Step equations for the two scanning loops

theorem splitBlankAux_nil (acc : List Char) : splitBlankAux acc [] = [acc.reverse] := by
  rw [splitBlankAux]

theorem splitBlankAux_cons_other (acc : List Char) (c : Char) (rest : List Char)
    (hc : c ≠ '\n') :
    splitBlankAux acc (c :: rest) = splitBlankAux (c :: acc) rest := by
  rw [splitBlankAux]
  exact if_neg hc

theorem splitBlankAux_cons_nosep (acc rest : List Char)
    (h : matchBlankSep rest = none) :
    splitBlankAux acc ('\n' :: rest) = splitBlankAux ('\n' :: acc) rest := by
  rw [splitBlankAux, if_pos rfl]
  split
  · rename_i rest2 heq
    rw [h] at heq
    exact absurd heq (by simp)
  · rfl

theorem splitBlankAux_cons_sep (acc rest rest2 : List Char)
    (h : matchBlankSep rest = some rest2) :
    splitBlankAux acc ('\n' :: rest) = acc.reverse :: splitBlankAux [] rest2 := by
  rw [splitBlankAux, if_pos rfl]
  split
  · rename_i r2 heq
    rw [h] at heq
    simp only [Option.some.injEq] at heq
    rw [heq]
  · rename_i heq
    rw [h] at heq
    exact absurd heq (by simp)

theorem splitSentAux_nil (acc : List Char) : splitSentAux acc [] = [acc.reverse] := by
  rw [splitSentAux]

theorem splitSentAux_cons_sep (acc : List Char) (c : Char) (rest : List Char)
    (hc : isSentEnd c = true) (hws : 2 ≤ (rest.takeWhile isWS).length) :
    splitSentAux acc (c :: rest)
      = (c :: acc).reverse :: splitSentAux [] (rest.drop (rest.takeWhile isWS).length) := by
  rw [splitSentAux, if_pos hc, if_pos hws]

theorem splitSentAux_cons_nosep (acc : List Char) (c : Char) (rest : List Char)
    (hc : isSentEnd c = true) (hws : ¬ 2 ≤ (rest.takeWhile isWS).length) :
    splitSentAux acc (c :: rest) = splitSentAux (c :: acc) rest := by
  rw [splitSentAux, if_pos hc, if_neg hws]

theorem splitSentAux_cons_other (acc : List Char) (c : Char) (rest : List Char)
    (hc : isSentEnd c = false) :
    splitSentAux acc (c :: rest) = splitSentAux (c :: acc) rest := by
  rw [splitSentAux, if_neg (by simp [hc])]

-- ## Fuel-based executable twins (structural recursion, kernel-reducible)

/-- Structural-recursion twin of `splitBlankAux`; agrees with it whenever
`fuel` is at least the text length. -/
def splitBlankFuel : Nat → List Char → List Char → List (List Char)
  | 0, acc, text => [acc.reverse ++ text]
  | _ + 1, acc, [] => [acc.reverse]
  | fuel + 1, acc, c :: rest =>
    if c = '\n' then
      match matchBlankSep rest with
      | some rest2 => acc.reverse :: splitBlankFuel fuel [] rest2
      | none => splitBlankFuel fuel (c :: acc) rest
    else splitBlankFuel fuel (c :: acc) rest

/-- Structural-recursion twin of `splitSentAux`; agrees with it whenever
`fuel` is at least the text length. -/
def splitSentFuel : Nat → List Char → List Char → List (List Char)
  | 0, acc, text => [acc.reverse ++ text]
  | _ + 1, acc, [] => [acc.reverse]
  | fuel + 1, acc, c :: rest =>
    if isSentEnd c then
      if 2 ≤ (rest.takeWhile isWS).length then
        (c :: acc).reverse :: splitSentFuel fuel [] (rest.drop (rest.takeWhile isWS).length)
      else splitSentFuel fuel (c :: acc) rest
    else splitSentFuel fuel (c :: acc) rest

theorem splitBlankFuel_eq (fuel : Nat) :
    ∀ acc text : List Char, text.length ≤ fuel →
      splitBlankFuel fuel acc text = splitBlankAux acc text := by
  induction fuel with
  | zero =>
      intro acc text hle
      have : text = [] := List.eq_nil_of_length_eq_zero (Nat.le_zero.mp hle)
      subst this
      rw [splitBlankAux_nil, splitBlankFuel]
      simp
  | succ n ih =>
      intro acc text hle
      match text with
      | [] => rw [splitBlankAux_nil]; rfl
      | c :: rest =>
        simp only [List.length_cons] at hle
        have hrest : rest.length ≤ n := Nat.lt_succ_iff.mp hle
        by_cases hc : c = '\n'
        · subst hc
          rcases hm : matchBlankSep rest with _ | rest2
          · rw [splitBlankAux_cons_nosep _ _ hm, splitBlankFuel, if_pos rfl, hm]
            exact ih _ _ hrest
          · rw [splitBlankAux_cons_sep _ _ _ hm, splitBlankFuel, if_pos rfl, hm]
            show acc.reverse :: splitBlankFuel n [] rest2 = _
            rw [ih _ _ ((matchBlankSep_length_le hm).trans hrest)]
        · rw [splitBlankAux_cons_other _ _ _ hc, splitBlankFuel, if_neg hc]
          exact ih _ _ hrest

theorem splitSentFuel_eq (fuel : Nat) :
    ∀ acc text : List Char, text.length ≤ fuel →
      splitSentFuel fuel acc text = splitSentAux acc text := by
  induction fuel with
  | zero =>
      intro acc text hle
      have : text = [] := List.eq_nil_of_length_eq_zero (Nat.le_zero.mp hle)
      subst this
      rw [splitSentAux_nil, splitSentFuel]
      simp
  | succ n ih =>
      intro acc text hle
      match text with
      | [] => rw [splitSentAux_nil]; rfl
      | c :: rest =>
        simp only [List.length_cons] at hle
        have hrest : rest.length ≤ n := Nat.lt_succ_iff.mp hle
        by_cases hc : isSentEnd c
        · by_cases hws : 2 ≤ (rest.takeWhile isWS).length
          · rw [splitSentAux_cons_sep _ _ _ hc hws, splitSentFuel,
              if_pos hc, if_pos hws]
            have hdle : (rest.drop (rest.takeWhile isWS).length).length ≤ n := by
              have : (rest.drop (rest.takeWhile isWS).length).length ≤ rest.length := by
                simp [List.length_drop]
              omega
            rw [ih _ _ hdle]
          · rw [splitSentAux_cons_nosep _ _ _ hc hws, splitSentFuel,
              if_pos hc, if_neg hws]
            exact ih _ _ hrest
        · have hc' : isSentEnd c = false := by
            cases hx : isSentEnd c
            · rfl
            · exact absurd hx hc
          rw [splitSentAux_cons_other _ _ _ hc', splitSentFuel, if_neg hc]
          exact ih _ _ hrest

/-- Executable twin of `split_into_paragraphs`. -/
def split_into_paragraphsExec (text : List Char) : List (List Char) :=
  ((((splitBlankFuel text.length [] text).map strip).filter (fun p => !p.isEmpty)).map
      (fun p => ((splitSentFuel p.length [] p).map strip).filter
          (fun c => !c.isEmpty))).flatten

theorem split_into_paragraphs_eq_exec (text : List Char) :
    split_into_paragraphs text = split_into_paragraphsExec text := by
  unfold split_into_paragraphs split_into_paragraphsExec splitBlank splitSent
  rw [splitBlankFuel_eq text.length [] text (Nat.le_refl _)]
  congr 1
  apply List.map_congr_left
  intro p _
  rw [splitSentFuel_eq p.length [] p (Nat.le_refl _)]

-- ## Lemmas about strip

theorem dropWhile_idem (p : Char → Bool) (l : List Char) :
    (l.dropWhile p).dropWhile p = l.dropWhile p := by
  induction l with
  | nil => rfl
  | cons c rest ih =>
      by_cases h : p c
      · simp [List.dropWhile_cons, h, ih]
      · simp [List.dropWhile_cons, h]

theorem stripR_isPre (l : List Char) : stripR l <+: l := by
  obtain ⟨s, hs⟩ := List.dropWhile_suffix (l := l.reverse) (p := isWS)
  refine ⟨s.reverse, ?_⟩
  have h2 := congrArg List.reverse hs
  simpa [stripR, List.reverse_append] using h2

theorem stripL_stripR (l : List Char) (h : stripL l = l) :
    stripL (stripR l) = stripR l := by
  rcases hsr : stripR l with _ | ⟨a, t⟩
  · rfl
  · obtain ⟨s, hs⟩ := stripR_isPre l
    rw [hsr] at hs
    have hl : l = a :: (t ++ s) := by rw [← hs]; rfl
    have ha : isWS a = false := by
      by_contra hc
      have ha' : isWS a = true := by
        cases hx : isWS a
        · exact absurd hx hc
        · rfl
      have hh := h
      rw [hl] at hh
      simp only [stripL, List.dropWhile_cons, ha', if_pos] at hh
      have hlen := congrArg List.length hh
      have hle := (List.dropWhile_suffix (l := t ++ s) (p := isWS)).length_le
      simp only [List.length_cons] at hlen
      omega
    simp [stripL, List.dropWhile_cons, ha]

theorem stripR_idem (l : List Char) : stripR (stripR l) = stripR l := by
  simp [stripR, List.reverse_reverse, dropWhile_idem]

theorem strip_idem (l : List Char) : strip (strip l) = strip l := by
  have h1 : stripL (stripL l) = stripL l := dropWhile_idem _ _
  have h2 : stripL (stripR (stripL l)) = stripR (stripL l) := stripL_stripR _ h1
  show stripR (stripL (stripR (stripL l))) = stripR (stripL l)
  rw [h2, stripR_idem]

-- ## Lemmas about the blank-line split

theorem splitBlankAux_no_newline (rest : List Char) (h : '\n' ∉ rest) :
    ∀ acc, splitBlankAux acc rest = [acc.reverse ++ rest] := by
  induction rest with
  | nil => intro acc; rw [splitBlankAux_nil]; simp
  | cons c r ih =>
      intro acc
      have hc : c ≠ '\n' := fun hc => h (hc ▸ List.mem_cons_self c r)
      have hr : '\n' ∉ r := fun hr => h (List.mem_cons_of_mem c hr)
      rw [splitBlankAux_cons_other _ _ _ hc, ih hr]
      simp

theorem dropWhile_ne_newline_append (l : List Char) (h : ∀ c ∈ l, c ≠ '\n') :
    (l ++ ['\n']).dropWhile (fun c => c ≠ '\n') = ['\n'] := by
  induction l with
  | nil => simp [List.dropWhile_cons]
  | cons c r ih =>
      have hc := h c (List.mem_cons_self c r)
      simp only [List.cons_append, List.dropWhile_cons]
      rw [if_pos (by simp [hc])]
      exact ih fun x hx => h x (List.mem_cons_of_mem c hx)

theorem matchBlankSep_newline (b2 : List Char) (h : '\n' ∉ b2) :
    matchBlankSep ('\n' :: b2) = some b2 := by
  have hws : ('\n' :: b2).takeWhile isWS = '\n' :: b2.takeWhile isWS := by
    rw [List.takeWhile_cons, if_pos (by decide)]
  have hmem : ∀ c ∈ (b2.takeWhile isWS).reverse, c ≠ '\n' := by
    intro c hc hcn
    exact h (hcn ▸ (List.takeWhile_prefix isWS).subset (List.mem_reverse.mp hc))
  have ht : ((('\n' :: b2).takeWhile isWS).reverse.dropWhile (fun c => c ≠ '\n'))
      = ['\n'] := by
    rw [hws]
    simp only [List.reverse_cons]
    exact dropWhile_ne_newline_append _ hmem
  simp only [matchBlankSep, ht]
  rfl

theorem splitBlank_two_blocks (b1 b2 : List Char)
    (h1 : '\n' ∉ b1) (h2 : '\n' ∉ b2) :
    splitBlank (b1 ++ '\n' :: '\n' :: b2) = [b1, b2] := by
  suffices h : ∀ acc, splitBlankAux acc (b1 ++ '\n' :: '\n' :: b2)
      = (acc.reverse ++ b1) :: [b2] by
    have hx := h []
    simpa [splitBlank] using hx
  induction b1 with
  | nil =>
      intro acc
      simp only [List.nil_append]
      rw [splitBlankAux_cons_sep _ _ _ (matchBlankSep_newline b2 h2),
        splitBlankAux_no_newline b2 h2 []]
      simp
  | cons c r ih =>
      intro acc
      have hc : c ≠ '\n' := fun hc => h1 (hc ▸ List.mem_cons_self c r)
      have hr : '\n' ∉ r := fun hr => h1 (List.mem_cons_of_mem c hr)
      simp only [List.cons_append]
      rw [splitBlankAux_cons_other _ _ _ hc, ih hr (c :: acc)]
      simp

-- ## Every emitted unit is stripped and nonempty

theorem mem_split_into_paragraphs {text u : List Char}
    (hu : u ∈ split_into_paragraphs text) : strip u = u ∧ u ≠ [] := by
  unfold split_into_paragraphs at hu
  rw [List.mem_flatten] at hu
  obtain ⟨L, hL, huL⟩ := hu
  rw [List.mem_map] at hL
  obtain ⟨p, _, hLp⟩ := hL
  rw [← hLp, List.mem_filter] at huL
  obtain ⟨humap, hne⟩ := huL
  rw [List.mem_map] at humap
  obtain ⟨c, _, hc⟩ := humap
  constructor
  · rw [← hc]; exact strip_idem c
  · intro hnil
    rw [hnil] at hne
    simp at hne

/-- C4: segmentation first splits on blank-line boundaries (a text of two
newline-free blocks separated by a blank line yields exactly the two blocks
before sentence-level splitting), then splits blocks where a sentence-ending
punctuation mark is followed by two or more whitespace characters (the block
"Sentence one.  Sentence two." yields exactly those two units), and every
unit in the final output is stripped of surrounding whitespace and
nonempty. -/
theorem C4_segmentation :
    (∀ b1 b2 : List Char, '\n' ∉ b1 → '\n' ∉ b2 →
        splitBlank (b1 ++ '\n' :: '\n' :: b2) = [b1, b2])
    ∧ split_into_paragraphs "Sentence one.  Sentence two.".toList
        = ["Sentence one.".toList, "Sentence two.".toList]
    ∧ (∀ text u, u ∈ split_into_paragraphs text → strip u = u ∧ u ≠ []) := by
  refine ⟨splitBlank_two_blocks, ?_, fun text u hu => mem_split_into_paragraphs hu⟩
  rw [split_into_paragraphs_eq_exec]
  decide

/-- Witness for C4, instantiating the universally quantified parts: the
two-block input "Block one.\n\nBlock two." splits into exactly the two
blocks, and a concrete emitted unit is stripped and nonempty. -/
theorem C4_segmentation_witness :
    splitBlank ("Block one.".toList ++ '\n' :: '\n' :: "Block two.".toList)
        = ["Block one.".toList, "Block two.".toList]
    ∧ (strip "Sentence one.".toList = "Sentence one.".toList
        ∧ "Sentence one.".toList ≠ []) :=
  ⟨C4_segmentation.1 "Block one.".toList "Block two.".toList (by decide) (by decide),
   C4_segmentation.2.2 "Sentence one.  Sentence two.".toList "Sentence one.".toList
     (by rw [C4_segmentation.2.1]; exact List.mem_cons_self _ _)⟩

/-- Witness for C1: the paragraph "We apply machine learning and artificial
intelligence" contains two configured keywords; "machine learning" appears
earlier in the text, but "artificial intelligence" is earlier in the keyword
list (index 0) and wins. -/
theorem C1_classifier_first_keyword_witness :
    paragraph_contains_ai
        "We apply MACHINE learning and Artificial Intelligence daily".toList
      = (true, some "artificial intelligence".toList) := by
  have h := (C1_classifier_first_keyword
      "We apply MACHINE learning and Artificial Intelligence daily".toList).2.1
      ⟨0, by decide⟩ (by decide) (by intro j hj; exact (Nat.not_lt_zero _ hj).elim)
  simpa using h

-- ## Python word splitting and int parsing

/-- Python `str.split()` with no argument: maximal runs of non-whitespace
characters, in order; `cur` holds the current word's characters in
reverse. -/
def pywordsAux (cur : List Char) : List Char → List (List Char)
  | [] => if cur.isEmpty then [] else [cur.reverse]
  | c :: rest =>
    if isWS c then
      if cur.isEmpty then pywordsAux [] rest
      else cur.reverse :: pywordsAux [] rest
    else pywordsAux (c :: cur) rest

/-- Python `p.split()` — the whitespace-separated words of `p`. -/
def pywords (p : List Char) : List (List Char) := pywordsAux [] p

/-- Embeds `config.PARAGRAPH_MIN_WORDS`. -/
def PARAGRAPH_MIN_WORDS : Nat := 15

/-- Value of a nonempty decimal-digit string. -/
def digitsToNat (l : List Char) : Nat :=
  l.foldl (fun a c => 10 * a + (c.toNat - '0'.toNat)) 0

/-- Python `int(s)` on a string: surrounding whitespace stripped, optional
single sign, then a nonempty digit string; anything else raises
(`none`).  (Underscore digit grouping is not modelled; no caller produces
it.) -/
def parseIntPy (l : List Char) : Option Int :=
  match strip l with
  | '+' :: ds =>
      if ds.isEmpty ∨ ¬ ds.all Char.isDigit then none else some (digitsToNat ds)
  | '-' :: ds =>
      if ds.isEmpty ∨ ¬ ds.all Char.isDigit then none
      else some (-(digitsToNat ds : Int))
  | ds =>
      if ds.isEmpty ∨ ¬ ds.all Char.isDigit then none else some (digitsToNat ds)

-- ## Filing records and rows (`parse_filings._process_single_filing`)

/-- One record of the filings index as consumed by
`_process_single_filing`'s `rec.get(...)` calls: each looked-up key is
either absent (`none`) or a string; `year` is absent or an int. -/
structure PRec where
  ticker : Option (List Char)
  sector : Option (List Char)
  form : Option (List Char)
  form_type : Option (List Char)
  filing_date : Option (List Char)
  filed : Option (List Char)
  filing_url : Option (List Char)
  url : Option (List Char)
  year : Option Int
deriving DecidableEq

/-- Python truthiness of an optional string: `None` and `""` are falsy. -/
def truthy : Option (List Char) → Bool
  | none => false
  | some s => ¬ s.isEmpty

/-- Python truthiness of an optional int: `None` and `0` are falsy. -/
def truthyInt : Option Int → Bool
  | none => false
  | some n => n ≠ 0

/-- Python `a or b` on optional strings (used for the `rec.get(...) or
rec.get(...)` fallbacks): `b` when `a` is falsy. -/
def pyOr (a b : Option (List Char)) : Option (List Char) :=
  if truthy a then a else b

/-- Embeds `form = rec.get("form") or rec.get("form_type")`. -/
def recForm (rec : PRec) : Option (List Char) := pyOr rec.form rec.form_type

/-- Embeds `filing_date = rec.get("filing_date") or rec.get("filed")`. -/
def recDate (rec : PRec) : Option (List Char) := pyOr rec.filing_date rec.filed

/-- Embeds `url = rec.get("filing_url") or rec.get("url")`. -/
def recUrl (rec : PRec) : Option (List Char) := pyOr rec.filing_url rec.url

/-- Embeds `year = rec.get("year")`, else derived as `int(str(filing_date)[:4])`
when `filing_date` is truthy, with a parse failure giving `None`. -/
def recYear (rec : PRec) : Option Int :=
  match rec.year with
  | some y => some y
  | none =>
      if truthy (recDate rec) then
        match parseIntPy (((recDate rec).getD []).take 4) with
        | some n => some n
        | none => none
      else none

/-- The required-fields guard of `_process_single_filing`. -/
def recValid (rec : PRec) : Bool :=
  truthy rec.ticker ∧ truthy rec.sector ∧ truthy (recForm rec)
    ∧ truthy (recDate rec) ∧ truthy (recUrl rec) ∧ truthyInt (recYear rec)

/-- One output row dict of `_process_single_filing` (keys in insertion
order: ticker, sector, year, filing_date, form, paragraph, keyword). -/
structure Row where
  ticker : List Char
  sector : List Char
  year : Int
  filing_date : List Char
  form : List Char
  paragraph : List Char
  keyword : List Char
deriving DecidableEq

/-- The per-paragraph loop body of `_process_single_filing`: drop the
paragraph when its word count is below `PARAGRAPH_MIN_WORDS` (checked before
classification), classify, and emit a row on a keyword match. -/
def paragraphRow (ticker sector : List Char) (year : Int)
    (filing_date form : List Char) (p : List Char) : Option Row :=
  if (pywords p).length < PARAGRAPH_MIN_WORDS then none
  else
    match paragraph_contains_ai p with
    | (true, some kw) => some ⟨ticker, sector, year, filing_date, form, p, kw⟩
    | _ => none

/-- Embeds `parse_filings._process_single_filing` with the BeautifulSoup-based
`clean_html` abstracted as the parameter `cleanHtml` and
`_fetch_html_with_cache` abstracted as the per-URL oracle `fetch` (`none`
models the fetch returning `None` after exhausting retries). -/
def _process_single_filing (cleanHtml : List Char → List Char)
    (fetch : List Char → Option (List Char)) (rec : PRec) : List Row :=
  if ¬ recValid rec then []
  else
    let year := (recYear rec).getD 0
    if year < 2015 ∨ 2025 < year then []
    else
      match fetch ((recUrl rec).getD []) with
      | none => []
      | some html =>
          let text := cleanHtml html
          let paras := split_into_paragraphs text
          paras.filterMap
            (paragraphRow ((rec.ticker).getD []) ((rec.sector).getD []) year
              ((recDate rec).getD []) ((recForm rec).getD []))

-- ## Result collection and output table (`parse_filings.run_parse`)

/-- The `as_completed` collection loop of `run_parse`: each filing's worker
yields either a row list or a raised exception; exceptions are caught per
filing and contribute nothing.  (The spec marks completion order as
non-deterministic and not a correctness property; the model collects in
submission order.) -/
def collectRows (worker : PRec → Except (List Char) (List Row)) :
    List PRec → List Row
  | [] => []
  | r :: rest =>
      (match worker r with
       | .ok rows => rows
       | .error _ => []) ++ collectRows worker rest

/-- Column list of the explicitly-columned empty DataFrame built in the
`df.empty` branch of `run_parse`. -/
def RUN_PARSE_EMPTY_COLUMNS : List (List Char) :=
  ["ticker".toList, "sector".toList, "year".toList, "filing_date".toList,
   "form".toList, "paragraph".toList, "keyword".toList]

/-- Column list `pd.DataFrame(all_rows)` infers from the row dicts emitted
by `_process_single_filing` (dict-key insertion order). -/
def ROW_DICT_KEYS : List (List Char) :=
  ["ticker".toList, "sector".toList, "year".toList, "filing_date".toList,
   "form".toList, "paragraph".toList, "keyword".toList]

/-- The tabular output of `run_parse` as (columns, rows): the collected rows
as a DataFrame, replaced by an explicitly-columned empty frame when no rows
were collected. -/
def runParseTable (worker : PRec → Except (List Char) (List Row))
    (filings : List PRec) : List (List Char) × List Row :=
  let all_rows := collectRows worker filings
  if all_rows.isEmpty then (RUN_PARSE_EMPTY_COLUMNS, [])
  else (ROW_DICT_KEYS, all_rows)

/-- A filings-index record with all required fields present and a 2023
filing date, used to instantiate witnesses. -/
def sampleRec : PRec :=
  { ticker := some "AAPL".toList
  , sector := some "Tech".toList
  , form := some "10-K".toList
  , form_type := none
  , filing_date := some "2023-01-15".toList
  , filed := none
  , filing_url := some "https://www.sec.gov/Archives/x.htm".toList
  , url := none
  , year := none }

-- ## C3: per-filing failure isolation

/-- C3: a filing whose fetch returns the unavailable signal (`None`)
contributes an empty row list, and a worker that raises contributes nothing
while the remaining filings are still collected and merged — removing a
failing filing from the batch does not change the merged output. -/
theorem C3_per_filing_failure_isolation :
    (∀ (cleanHtml : List Char → List Char)
        (fetch : List Char → Option (List Char)) (rec : PRec),
        fetch ((recUrl rec).getD []) = none →
        _process_single_filing cleanHtml fetch rec = [])
    ∧ (∀ (worker : PRec → Except (List Char) (List Row)) (xs ys : List PRec)
        (bad : PRec) (e : List Char), worker bad = .error e →
        collectRows worker (xs ++ bad :: ys) = collectRows worker (xs ++ ys)) := by
  constructor
  · intro cleanHtml fetch rec hfetch
    simp only [_process_single_filing, hfetch]
    split
    · rfl
    · split
      · rfl
      · rfl
  · intro worker xs ys bad e hbad
    induction xs with
    | nil =>
        simp only [List.nil_append, collectRows, hbad]
    | cons x xs ih =>
        simp only [List.cons_append, collectRows]
        exact congrArg (fun t => (match worker x with
          | .ok rows => rows
          | .error _ => []) ++ t) ih

/-- Witness for C3: a concrete filing whose fetch always fails yields no
rows, and a raising worker in mid-batch leaves the other filings' merged
result unchanged. -/
theorem C3_per_filing_failure_isolation_witness :
    _process_single_filing id (fun _ => none) sampleRec = []
    ∧ collectRows (fun _ => Except.error "boom".toList)
          ([] ++ sampleRec :: [sampleRec])
        = collectRows (fun _ => Except.error "boom".toList) ([] ++ [sampleRec]) :=
  ⟨C3_per_filing_failure_isolation.1 id (fun _ => none) sampleRec rfl,
   C3_per_filing_failure_isolation.2 (fun _ => Except.error "boom".toList)
     [] [sampleRec] sampleRec "boom".toList rfl⟩

-- ## C9: empty output keeps the full schema

/-- C9: when the final collection of rows is empty, the output table still
has exactly the columns ticker, sector, year, filing_date, form, paragraph,
keyword, in this order, and zero data rows. -/
theorem C9_empty_output_schema (worker : PRec → Except (List Char) (List Row))
    (filings : List PRec) (h : collectRows worker filings = []) :
    runParseTable worker filings
      = (["ticker".toList, "sector".toList, "year".toList, "filing_date".toList,
          "form".toList, "paragraph".toList, "keyword".toList], []) := by
  simp only [runParseTable, h]
  rfl

/-- Witness for C9: a worker returning no rows on an index of one filing
produces the empty table with the full column schema. -/
theorem C9_empty_output_schema_witness :
    runParseTable (fun _ => Except.ok []) [sampleRec]
      = (["ticker".toList, "sector".toList, "year".toList, "filing_date".toList,
          "form".toList, "paragraph".toList, "keyword".toList], []) :=
  C9_empty_output_schema (fun _ => Except.ok []) [sampleRec] rfl

-- ## C5: minimum-word-count filter

theorem paragraphRow_paragraph {t s fd fm : List Char} {y : Int}
    {p : List Char} {row : Row}
    (h : paragraphRow t s y fd fm p = some row) : row.paragraph = p := by
  unfold paragraphRow at h
  split at h
  · exact absurd h (by simp)
  · split at h
    · cases h
      rfl
    · exact absurd h (by simp)

theorem findKw_fst_true {lower : List Char} {kws : List (List Char)}
    (h : (findKw lower kws).1 = true) :
    ∃ kw, findKw lower kws = (true, some kw) := by
  induction kws with
  | nil => exact absurd h (by simp [findKw])
  | cons kw rest ih =>
      have hstep : findKw lower (kw :: rest)
          = if substrB kw lower then (true, some kw) else findKw lower rest := rfl
      by_cases hs : substrB kw lower
      · exact ⟨kw, by rw [hstep, if_pos hs]⟩
      · rw [hstep, if_neg hs] at h ⊢
        exact ih h

theorem process_rows_eq (cleanHtml : List Char → List Char)
    (fetch : List Char → Option (List Char)) (rec : PRec) (html : List Char)
    (hvalid : recValid rec = true)
    (hwin : ¬ ((recYear rec).getD 0 < 2015 ∨ 2025 < (recYear rec).getD 0))
    (hfetch : fetch ((recUrl rec).getD []) = some html) :
    _process_single_filing cleanHtml fetch rec
      = (split_into_paragraphs (cleanHtml html)).filterMap
          (paragraphRow ((rec.ticker).getD []) ((rec.sector).getD [])
            ((recYear rec).getD 0) ((recDate rec).getD []) ((recForm rec).getD [])) := by
  unfold _process_single_filing
  rw [if_neg (not_not_intro hvalid), if_neg hwin, hfetch]

/-- C5: with the configured minimum `PARAGRAPH_MIN_WORDS = 15` applied
before classification, a paragraph of exactly `N-1` whitespace-separated
words never appears in the output rows of a filing, and a paragraph of the
block list with exactly `N` words that matches a keyword appears in the
output rows. -/
theorem C5_min_word_filter (cleanHtml : List Char → List Char)
    (fetch : List Char → Option (List Char)) (rec : PRec) (html p : List Char)
    (hvalid : recValid rec = true)
    (hwin : ¬ ((recYear rec).getD 0 < 2015 ∨ 2025 < (recYear rec).getD 0))
    (hfetch : fetch ((recUrl rec).getD []) = some html) :
    PARAGRAPH_MIN_WORDS = 15
    ∧ ((pywords p).length = PARAGRAPH_MIN_WORDS - 1 →
        ∀ row ∈ _process_single_filing cleanHtml fetch rec, row.paragraph ≠ p)
    ∧ (p ∈ split_into_paragraphs (cleanHtml html) →
        (pywords p).length = PARAGRAPH_MIN_WORDS →
        (paragraph_contains_ai p).1 = true →
        ∃ row ∈ _process_single_filing cleanHtml fetch rec, row.paragraph = p) := by
  rw [process_rows_eq cleanHtml fetch rec html hvalid hwin hfetch]
  refine ⟨rfl, ?_, ?_⟩
  · intro hwc row hrow hpar
    rw [List.mem_filterMap] at hrow
    obtain ⟨q, _, hq⟩ := hrow
    have hqp : row.paragraph = q := paragraphRow_paragraph hq
    rw [hpar] at hqp
    rw [← hqp] at hq
    unfold paragraphRow at hq
    rw [if_pos (by rw [hwc]; decide)] at hq
    exact absurd hq (by simp)
  · intro hp hwc hcls
    have hcls2 : (findKw (lowerStr p) AI_KEYWORDS).1 = true := hcls
    obtain ⟨kw, hkw⟩ := findKw_fst_true hcls2
    refine ⟨⟨(rec.ticker).getD [], (rec.sector).getD [], (recYear rec).getD 0,
        (recDate rec).getD [], (recForm rec).getD [], p, kw⟩, ?_, rfl⟩
    rw [List.mem_filterMap]
    refine ⟨p, hp, ?_⟩
    unfold paragraphRow
    rw [if_neg (by rw [hwc]; decide)]
    rw [show paragraph_contains_ai p = (true, some kw) from hkw]

/-- A 14-word paragraph containing the keyword "machine learning". -/
def para14 : List Char :=
  "Machine learning helps our team ship better products to more customers every single day".toList

/-- A 15-word paragraph containing the keyword "artificial intelligence". -/
def para15 : List Char :=
  "We use artificial intelligence to build new products for many customers worldwide every single day".toList

/-- A fetched document consisting of the two paragraphs separated by a blank
line. -/
def sampleHtml : List Char := para14 ++ '\n' :: '\n' :: para15

set_option maxRecDepth 4000 in
/-- Witness for C5: in the concrete document holding a 14-word keyword
paragraph and a 15-word keyword paragraph, the 14-word paragraph is excluded
from the output rows and the 15-word paragraph is included. -/
theorem C5_min_word_filter_witness :
    (∀ row ∈ _process_single_filing id (fun _ => some sampleHtml) sampleRec,
        row.paragraph ≠ para14)
    ∧ (∃ row ∈ _process_single_filing id (fun _ => some sampleHtml) sampleRec,
        row.paragraph = para15) :=
  ⟨(C5_min_word_filter id (fun _ => some sampleHtml) sampleRec sampleHtml para14
      (by decide) (by decide) rfl).2.1 (by decide),
   (C5_min_word_filter id (fun _ => some sampleHtml) sampleRec sampleHtml para15
      (by decide) (by decide) rfl).2.2
     (by show para15 ∈ split_into_paragraphs sampleHtml
         rw [split_into_paragraphs_eq_exec]
         decide)
     (by decide) (by decide)⟩

-- ## Fetch cache (`parse_filings._fetch_html_with_cache`)

/-- Embeds `parse_filings.MAX_RETRIES`. -/
def MAX_RETRIES : Nat := 2

/-- Embeds `_cache_path_for_url`: the md5-digest-derived cache file for a URL,
modelled as a deterministic injective key — the URL itself (md5 collisions
are out of scope; identical URLs give identical keys). -/
def cacheKey (url : List Char) : List Char := url

/-- The on-disk cache and a counter of how many times the network-fetch
block (the retry loop) has been entered. -/
structure CacheState where
  cache : List (List Char × List Char)
  episodes : Nat
deriving DecidableEq

/-- Embeds `cache_path.exists()` + `cache_path.read_text(...)` (reads modelled as
succeeding when the entry exists). -/
def lookupCache (s : CacheState) (k : List Char) : Option (List Char) :=
  (s.cache.find? (fun kv => kv.1 = k)).map (fun kv => kv.2)

/-- The `for attempt in range(1, MAX_RETRIES + 1)` loop of
`_fetch_html_with_cache`: `net i` is the outcome of the i-th HTTP attempt of
this episode (`none` = exception raised by the request).  On the first
success the text is written to the cache (writes modelled as succeeding) and
returned; after exhausting the attempts the unavailable signal `none` is
returned. -/
def fetchRetryLoop (net : Nat → Option (List Char)) (key : List Char)
    (s : CacheState) : Nat → Nat → Option (List Char) × CacheState
  | _, 0 => (none, s)
  | attempt, k + 1 =>
      match net attempt with
      | some html => (some html, { s with cache := (key, html) :: s.cache })
      | none => fetchRetryLoop net key s (attempt + 1) k

/-- Embeds `parse_filings._fetch_html_with_cache`: serve from the cache when the
URL's entry exists, otherwise enter the network-fetch block (counted in
`episodes`) with up to `MAX_RETRIES` attempts. -/
def _fetch_html_with_cache (net : Nat → Option (List Char)) (url : List Char)
    (s : CacheState) : Option (List Char) × CacheState :=
  match lookupCache s (cacheKey url) with
  | some content => (some content, s)
  | none =>
      fetchRetryLoop net (cacheKey url) { s with episodes := s.episodes + 1 }
        1 MAX_RETRIES

theorem fetchRetryLoop_success {net : Nat → Option (List Char)}
    {key : List Char} {s : CacheState} {attempt k : Nat}
    {h1 : List Char} {s1 : CacheState}
    (h : fetchRetryLoop net key s attempt k = (some h1, s1)) :
    s1 = { s with cache := (key, h1) :: s.cache } := by
  induction k generalizing attempt with
  | zero => exact absurd (congrArg Prod.fst h) (by simp [fetchRetryLoop])
  | succ n ih =>
      rw [fetchRetryLoop] at h
      rcases hn : net attempt with _ | html
      · rw [hn] at h
        exact ih h
      · rw [hn] at h
        simp only [Prod.mk.injEq, Option.some.injEq] at h
        rw [← h.1, ← h.2]

/-- C2: for every URL not yet cached, if the first call of
`_fetch_html_with_cache` succeeds then the cache holds the fetched content
under the URL's key, a second call in the same run is served from the cache
— returning identical content and leaving the state (hence the network)
untouched — and the network-fetch block ran exactly once across the two
calls. -/
theorem C2_fetch_cache (net net2 : Nat → Option (List Char)) (url : List Char)
    (s : CacheState) (h1 : List Char) (s1 : CacheState)
    (hmiss : lookupCache s (cacheKey url) = none)
    (hcall : _fetch_html_with_cache net url s = (some h1, s1)) :
    lookupCache s1 (cacheKey url) = some h1
    ∧ _fetch_html_with_cache net2 url s1 = (some h1, s1)
    ∧ s1.episodes = s.episodes + 1 := by
  rw [_fetch_html_with_cache, hmiss] at hcall
  have hs1 := fetchRetryLoop_success hcall
  have hlook : lookupCache s1 (cacheKey url) = some h1 := by
    rw [hs1]
    simp [lookupCache, List.find?_cons]
  refine ⟨hlook, ?_, ?_⟩
  · rw [_fetch_html_with_cache, hlook]
  · rw [hs1]

/-- Witness for C2: starting from the empty cache with a network that
answers the first attempt, the second call for the same URL is a cache hit
with identical content and no further network episode. -/
theorem C2_fetch_cache_witness :
    lookupCache
        (_fetch_html_with_cache (fun _ => some "<html>doc</html>".toList)
          "https://www.sec.gov/Archives/a.htm".toList ⟨[], 0⟩).2
        (cacheKey "https://www.sec.gov/Archives/a.htm".toList)
      = some "<html>doc</html>".toList
    ∧ _fetch_html_with_cache (fun _ => none)
        "https://www.sec.gov/Archives/a.htm".toList
        (_fetch_html_with_cache (fun _ => some "<html>doc</html>".toList)
          "https://www.sec.gov/Archives/a.htm".toList ⟨[], 0⟩).2
      = (some "<html>doc</html>".toList,
         (_fetch_html_with_cache (fun _ => some "<html>doc</html>".toList)
          "https://www.sec.gov/Archives/a.htm".toList ⟨[], 0⟩).2)
    ∧ (_fetch_html_with_cache (fun _ => some "<html>doc</html>".toList)
        "https://www.sec.gov/Archives/a.htm".toList ⟨[], 0⟩).2.episodes = 0 + 1 :=
  C2_fetch_cache (fun _ => some "<html>doc</html>".toList) (fun _ => none)
    "https://www.sec.gov/Archives/a.htm".toList ⟨[], 0⟩
    "<html>doc</html>".toList _ rfl rfl

-- ## Discovery-index loading (`parse_filings.load_index`)

/-- A parsed JSON document as produced by `json.load`. -/
inductive Json where
  | null
  | bool (b : Bool)
  | num (n : Int)
  | str (s : List Char)
  | arr (items : List Json)
  | obj (fields : List (List Char × Json))

/-- Embeds `isinstance(data, list)`. -/
def Json.isArr : Json → Bool
  | .arr _ => true
  | _ => false

/-- The list value of a JSON document when it is a list. -/
def Json.getArr? : Json → Option (List Json)
  | .arr l => some l
  | _ => none

/-- Embeds `key in data and isinstance(data[key], list)`: the value under `key`
when present and a list. -/
def lookupList (fields : List (List Char × Json)) (key : List Char) :
    Option (List Json) :=
  match fields.find? (fun kv => kv.1 = key) with
  | some (_, .arr l) => some l
  | _ => none

/-- The `for key in ["filings", "records", "items"]` loop of `load_index`:
the list under the first recognized key holding one. -/
def findRecognized (fields : List (List Char × Json)) : Option (List Json) :=
  match lookupList fields "filings".toList with
  | some l => some l
  | none =>
      match lookupList fields "records".toList with
      | some l => some l
      | none => lookupList fields "items".toList

/-- The fallback of `load_index`: all list-valued members of the dict,
concatenated in field order. -/
def allListVals (fields : List (List Char × Json)) : List Json :=
  (fields.filterMap (fun kv => Json.getArr? kv.2)).flatten

/-- Embeds `parse_filings.load_index` on the parsed JSON document (the file open
and `json.load` are modelled away): a list is returned as-is; a dict yields
the list under the first recognized key, else the concatenation of all its
list-valued members when nonempty; everything else raises `ValueError`. -/
def load_index : Json → Except (List Char) (List Json)
  | .arr l => .ok l
  | .obj fields =>
      match findRecognized fields with
      | some l => .ok l
      | none =>
          let all_vals := allListVals fields
          if all_vals.isEmpty then
            .error "Unexpected structure in sec_filings_index.json".toList
          else .ok all_vals
  | _ => .error "Unexpected structure in sec_filings_index.json".toList

/-- Counterexample to C6: a JSON object whose only list sits under the
unrecognized key "other" is neither a flat list nor an object with a list
under a recognized key name, yet `load_index` accepts it through the
fallback instead of failing hard. -/
theorem C6_counterexample_fallback_accepts :
    Json.isArr (Json.obj [("other".toList, Json.arr [Json.str "x".toList])]) = false
    ∧ findRecognized [("other".toList, Json.arr [Json.str "x".toList])] = none
    ∧ load_index (Json.obj [("other".toList, Json.arr [Json.str "x".toList])])
        = .ok [Json.str "x".toList] :=
  ⟨rfl, rfl, rfl⟩

/-- C6 (amended): `load_index` accepts a flat list as-is and an object with
a list under the first recognized key among "filings", "records", "items";
for an object with no recognized list-valued key it falls back to
concatenating all list-valued members, accepting the result when
nonempty and raising when empty; every non-list non-object document
raises. -/
theorem C6_load_index_shapes :
    (∀ l, load_index (Json.arr l) = .ok l)
    ∧ (∀ fields l, findRecognized fields = some l →
        load_index (Json.obj fields) = .ok l)
    ∧ (∀ fields, findRecognized fields = none →
        load_index (Json.obj fields)
          = if (allListVals fields).isEmpty then
              .error "Unexpected structure in sec_filings_index.json".toList
            else .ok (allListVals fields))
    ∧ (∀ j : Json, (∀ l, j ≠ Json.arr l) → (∀ f, j ≠ Json.obj f) →
        load_index j = .error "Unexpected structure in sec_filings_index.json".toList) := by
  refine ⟨fun l => rfl, ?_, ?_, ?_⟩
  · intro fields l h
    simp only [load_index, h]
  · intro fields h
    simp only [load_index, h]
  · intro j harr hobj
    match j with
    | .null => rfl
    | .bool b => rfl
    | .num n => rfl
    | .str s => rfl
    | .arr l => exact absurd rfl (harr l)
    | .obj f => exact absurd rfl (hobj f)

/-- Witness for C6 (amended): concrete instances of the recognized-key,
fallback, and hard-failure branches. -/
theorem C6_load_index_shapes_witness :
    load_index (Json.obj [("filings".toList, Json.arr [Json.num 7])])
        = .ok [Json.num 7]
    ∧ load_index (Json.obj [("other".toList, Json.arr [Json.num 8])])
        = .ok [Json.num 8]
    ∧ load_index (Json.num 3)
        = .error "Unexpected structure in sec_filings_index.json".toList :=
  ⟨C6_load_index_shapes.2.1 [("filings".toList, Json.arr [Json.num 7])]
      [Json.num 7] rfl,
   by rw [C6_load_index_shapes.2.2.1 [("other".toList, Json.arr [Json.num 8])] rfl]
      rfl,
   C6_load_index_shapes.2.2.2 (Json.num 3) (fun l h => by cases h)
     (fun f h => by cases h)⟩

-- ## CIK padding (`sec_fetch.pad_cik`)

/-- Python `str.zfill(width)`: left-pad with `'0'` to `width` (no-op when
already at least `width` long); a leading sign character stays in front of
the inserted zeros. -/
def zfill (s : List Char) (width : Nat) : List Char :=
  if width ≤ s.length then s
  else
    match s with
    | [] => List.replicate width '0'
    | c :: rest =>
        if c = '+' ∨ c = '-' then
          c :: (List.replicate (width - s.length) '0' ++ rest)
        else List.replicate (width - s.length) '0' ++ s

/-- Embeds `sec_fetch.pad_cik`: `str(cik).zfill(10)` (the argument is already a
string at every call site). -/
def pad_cik (cik : List Char) : List Char := zfill cik 10

theorem zfill_length (s : List Char) (w : Nat) :
    (zfill s w).length = max w s.length := by
  unfold zfill
  split
  · omega
  · split
    · simp only [List.length_replicate]
      omega
    · split
      all_goals
        simp_all only [List.length_cons, List.length_append, List.length_replicate,
          not_le]
        omega

theorem pad_cik_idem (x : List Char) : pad_cik (pad_cik x) = pad_cik x := by
  have hlen : 10 ≤ (zfill x 10).length := by
    rw [zfill_length]
    omega
  show zfill (zfill x 10) 10 = zfill x 10
  rw [zfill.eq_def, if_pos hlen]

/-- One entry of `config.COMPANIES`. -/
structure Company where
  ticker : List Char
  cik : List Char
  sector : List Char
deriving DecidableEq

/-- Embeds `config.COMPANIES` — the static company universe. -/
def COMPANIES : List Company :=
  [ ⟨"AAPL".toList, "0000320193".toList, "Tech".toList⟩
  , ⟨"MSFT".toList, "0000789019".toList, "Tech".toList⟩
  , ⟨"GOOGL".toList, "0001652044".toList, "Tech".toList⟩
  , ⟨"AMZN".toList, "0001018724".toList, "Tech".toList⟩
  , ⟨"META".toList, "0001326801".toList, "Tech".toList⟩
  , ⟨"NVDA".toList, "0001045810".toList, "Tech".toList⟩
  , ⟨"AMD".toList, "0000002488".toList, "Tech".toList⟩
  , ⟨"AVGO".toList, "0001730168".toList, "Tech".toList⟩
  , ⟨"CRM".toList, "0001108524".toList, "Tech".toList⟩
  , ⟨"ORCL".toList, "0001341439".toList, "Tech".toList⟩
  , ⟨"IBM".toList, "0000051143".toList, "Tech".toList⟩
  , ⟨"INTC".toList, "0000050863".toList, "Tech".toList⟩
  , ⟨"ADBE".toList, "0000796343".toList, "Tech".toList⟩
  , ⟨"CSCO".toList, "0000858877".toList, "Tech".toList⟩
  , ⟨"SNOW".toList, "0001640147".toList, "Tech".toList⟩
  , ⟨"XOM".toList, "0000034088".toList, "Energy".toList⟩
  , ⟨"CVX".toList, "0000093410".toList, "Energy".toList⟩
  , ⟨"SLB".toList, "0000087347".toList, "Energy".toList⟩
  , ⟨"OXY".toList, "0000797468".toList, "Energy".toList⟩
  , ⟨"BP".toList, "0000313807".toList, "Energy".toList⟩
  , ⟨"SHEL".toList, "0001306965".toList, "Energy".toList⟩
  , ⟨"COP".toList, "0001163165".toList, "Energy".toList⟩
  , ⟨"EOG".toList, "0000821189".toList, "Energy".toList⟩
  , ⟨"PBR".toList, "0001161683".toList, "Energy".toList⟩
  , ⟨"HAL".toList, "0000045012".toList, "Energy".toList⟩
  , ⟨"KMI".toList, "0001506307".toList, "Energy".toList⟩
  , ⟨"ENB".toList, "0000378249".toList, "Energy".toList⟩
  , ⟨"EPD".toList, "0001061219".toList, "Energy".toList⟩
  , ⟨"NE".toList, "0000314808".toList, "Energy".toList⟩
  , ⟨"OKLO".toList, "0001849056".toList, "Energy".toList⟩ ]

/-- C8: for every configured company identifier, `pad_cik` yields a
10-character all-digit string, and `pad_cik` is idempotent on every input
string. -/
theorem C8_pad_cik_fixed_width_idempotent :
    (∀ c ∈ COMPANIES,
        (pad_cik c.cik).length = 10 ∧ (pad_cik c.cik).all Char.isDigit = true)
    ∧ (∀ x : List Char, pad_cik (pad_cik x) = pad_cik x) := by
  refine ⟨?_, pad_cik_idem⟩
  decide

/-- Witness for C8: the first configured company's identifier pads to a
10-digit string, and padding a short identifier twice equals padding it
once. -/
theorem C8_pad_cik_witness :
    ((pad_cik ("0000320193".toList)).length = 10
      ∧ (pad_cik ("0000320193".toList)).all Char.isDigit = true)
    ∧ pad_cik (pad_cik "7".toList) = pad_cik "7".toList :=
  ⟨C8_pad_cik_fixed_width_idempotent.1
      ⟨"AAPL".toList, "0000320193".toList, "Tech".toList⟩ (by decide),
   C8_pad_cik_fixed_width_idempotent.2 "7".toList⟩

-- ## Filing URL construction (`sec_fetch.build_filing_url`)

/-- Leading zeros dropped, at least one digit kept. -/
def stripLeadingZeros (s : List Char) : List Char :=
  match s.dropWhile (fun c => c = '0') with
  | [] => ['0']
  | r => r

/-- Python `str(int(s))` for a decimal-digit string: the canonical decimal
form, i.e. leading zeros stripped (with `"0"` for an all-zero string); for a
string that is empty or holds a non-digit, `int()` raises, modelled as
`none`.  (Signed or whitespace-padded inputs never reach this call.) -/
def str_int (s : List Char) : Option (List Char) :=
  if s.isEmpty ∨ ¬ s.all Char.isDigit then none
  else some (stripLeadingZeros s)

/-- The EDGAR archive prefix of `build_filing_url`. -/
def EDGAR_URL_BASE : List Char := "https://www.sec.gov/Archives/edgar/data/".toList

/-- Embeds `sec_fetch.build_filing_url`: `str(int(cik))` (raising on a non-numeric
CIK, modelled as `none`), accession dashes removed, and either a
directory-level URL when the primary document is missing/empty (Python
falsy) or the primary document appended as the final path segment. -/
def build_filing_url (cik accession primary_doc : List Char) :
    Option (List Char) :=
  match str_int cik with
  | none => none
  | some cik_no_leading =>
      let acc_nodash := accession.filter (fun c => c ≠ '-')
      if primary_doc.isEmpty then
        some (EDGAR_URL_BASE ++ cik_no_leading ++ ['/'] ++ acc_nodash ++ ['/'])
      else
        some (EDGAR_URL_BASE ++ cik_no_leading ++ ['/'] ++ acc_nodash ++ ['/']
          ++ primary_doc)

/-- C10: for a numeric identifier, a missing/empty primary document name
yields the directory-level URL — leading zeros stripped from the
identifier, dashes removed from the accession id, trailing slash — rather
than a failure, and a present primary document name is appended to that
directory URL as the final path segment. -/
theorem C10_build_filing_url_directory_fallback
    (cik accession primary_doc : List Char)
    (hcik : ¬ (cik.isEmpty ∨ ¬ cik.all Char.isDigit))
    (hdoc : primary_doc ≠ []) :
    build_filing_url cik accession []
        = some (EDGAR_URL_BASE ++ stripLeadingZeros cik ++ ['/']
            ++ accession.filter (fun c => c ≠ '-') ++ ['/'])
    ∧ build_filing_url cik accession primary_doc
        = some (EDGAR_URL_BASE ++ stripLeadingZeros cik ++ ['/']
            ++ accession.filter (fun c => c ≠ '-') ++ ['/'] ++ primary_doc) := by
  have hs : str_int cik = some (stripLeadingZeros cik) := by
    rw [str_int, if_neg hcik]
  constructor
  · simp only [build_filing_url, hs]
    rfl
  · simp only [build_filing_url, hs]
    rw [if_neg (by simpa [List.isEmpty_iff] using hdoc)]

/-- Witness for C10: Amazon's CIK with an accession id, with and without a
primary document name. -/
theorem C10_build_filing_url_witness :
    build_filing_url "0001018724".toList "0001018724-24-000008".toList []
        = some (EDGAR_URL_BASE ++ "1018724".toList ++ ['/']
            ++ "000101872424000008".toList ++ ['/'])
    ∧ build_filing_url "0001018724".toList "0001018724-24-000008".toList
          "amzn-20231231.htm".toList
        = some (EDGAR_URL_BASE ++ "1018724".toList ++ ['/']
            ++ "000101872424000008".toList ++ ['/'] ++ "amzn-20231231.htm".toList) := by
  have h := C10_build_filing_url_directory_fallback "0001018724".toList
    "0001018724-24-000008".toList "amzn-20231231.htm".toList
    (by decide) (by decide)
  constructor
  · rw [h.1]
    decide
  · rw [h.2]
    decide

-- ## Discovery filtering (`sec_fetch.extract_filings_for_company`)

/-- Embeds `config.FORMS_TO_INCLUDE`. -/
def FORMS_TO_INCLUDE : List (List Char) :=
  ["10-K".toList, "10-Q".toList, "20-F".toList, "40-F".toList,
   "6-K".toList, "8-K".toList]

/-- Embeds `config.START_YEAR`. -/
def START_YEAR : Int := 2015

/-- Embeds `config.END_YEAR`. -/
def END_YEAR : Int := 2025

/-- Embeds `sec_fetch.in_year_range`: `int(date_str.split("-")[0])` (the prefix
before the first dash), inside `[START_YEAR, END_YEAR]` inclusive; a parse
failure returns `False`. -/
def in_year_range (date_str : List Char) : Bool :=
  match parseIntPy (date_str.takeWhile (fun c => c ≠ '-')) with
  | none => false
  | some year => START_YEAR ≤ year ∧ year ≤ END_YEAR

/-- The four parallel arrays under the registry response's
`filings.recent` block. -/
structure Submissions where
  forms : List (List Char)
  dates : List (List Char)
  accessions : List (List Char)
  primaryDocs : List (List Char)
deriving DecidableEq

/-- One record appended by `extract_filings_for_company`. -/
structure Filing where
  ticker : List Char
  cik : List Char
  sector : List Char
  form : List Char
  filing_date : List Char
  accession : List Char
  primary_doc : List Char
  filing_url : List Char
deriving DecidableEq

/-- The loop body of `extract_filings_for_company` at aligned index `i`:
skip when the form is not allow-listed or the filing date is outside the
year window; a URL-construction exception (non-numeric CIK) is caught and
skips the record. -/
def extractAt (ticker cik sector : List Char) (d : Submissions) (i : Nat) :
    Option Filing :=
  let form := d.forms.getD i []
  let filing_date := d.dates.getD i []
  let accession := d.accessions.getD i []
  let primary_doc := d.primaryDocs.getD i []
  if form ∈ FORMS_TO_INCLUDE then
    if in_year_range filing_date then
      match build_filing_url cik accession primary_doc with
      | none => none
      | some u =>
          some ⟨ticker, pad_cik cik, sector, form, filing_date, accession,
            primary_doc, u⟩
    else none
  else none

/-- The aligned iteration bound of `extract_filings_for_company`:
`min` of the four array lengths. -/
def alignedLen (d : Submissions) : Nat :=
  min (min d.forms.length d.dates.length)
    (min d.accessions.length d.primaryDocs.length)

/-- Embeds `sec_fetch.extract_filings_for_company`: iterate the aligned indexes
`0 ≤ i < alignedLen d` and collect the surviving records. -/
def extract_filings_for_company (ticker cik sector : List Char)
    (d : Submissions) : List Filing :=
  (List.range (alignedLen d)).filterMap (extractAt ticker cik sector d)

/-- The four arrays truncated to their common aligned length. -/
def truncateSubmissions (d : Submissions) : Submissions :=
  ⟨d.forms.take (alignedLen d), d.dates.take (alignedLen d),
   d.accessions.take (alignedLen d), d.primaryDocs.take (alignedLen d)⟩

theorem filterMap_congr_list {α β : Type} (l : List α) (f g : α → Option β)
    (h : ∀ a ∈ l, f a = g a) : l.filterMap f = l.filterMap g := by
  induction l with
  | nil => rfl
  | cons a t ih =>
      rw [List.filterMap_cons, List.filterMap_cons, h a (List.mem_cons_self a t),
        ih (fun x hx => h x (List.mem_cons_of_mem a hx))]

theorem getD_take_of_lt {α : Type} (l : List α) (n i : Nat) (d : α) (h : i < n) :
    (l.take n).getD i d = l.getD i d := by
  simp [List.getD_eq_getElem?_getD, List.getElem?_take, h]

theorem alignedLen_truncate (d : Submissions) :
    alignedLen (truncateSubmissions d) = alignedLen d := by
  simp only [alignedLen, truncateSubmissions, List.length_take]
  omega

theorem extractAt_form_year {ticker cik sector : List Char} {d : Submissions}
    {i : Nat} {r : Filing}
    (h : extractAt ticker cik sector d i = some r) :
    r.form ∈ FORMS_TO_INCLUDE ∧ in_year_range r.filing_date = true := by
  simp only [extractAt] at h
  split at h
  · split at h
    · split at h
      · exact absurd h (by simp)
      · cases h
        constructor
        · assumption
        · assumption
    · exact absurd h (by simp)
  · exact absurd h (by simp)

/-- C7: discovery iterates exactly the first `min` of the four parallel
array lengths aligned indexes — the result on diverging arrays equals the
result on the arrays truncated to the common length, with no failure — and
every emitted record's form is allow-listed and its filing year lies in the
inclusive configured window. -/
theorem C7_truncation_and_filters (ticker cik sector : List Char)
    (d : Submissions) :
    extract_filings_for_company ticker cik sector d
      = extract_filings_for_company ticker cik sector (truncateSubmissions d)
    ∧ ∀ r ∈ extract_filings_for_company ticker cik sector d,
        r.form ∈ FORMS_TO_INCLUDE ∧ in_year_range r.filing_date = true := by
  constructor
  · unfold extract_filings_for_company
    rw [alignedLen_truncate]
    apply filterMap_congr_list
    intro i hi
    rw [List.mem_range] at hi
    have h1 : i < alignedLen d := hi
    simp only [extractAt, truncateSubmissions]
    rw [getD_take_of_lt _ _ _ _ (by unfold alignedLen at h1 ⊢; omega),
      getD_take_of_lt _ _ _ _ (by unfold alignedLen at h1 ⊢; omega),
      getD_take_of_lt _ _ _ _ (by unfold alignedLen at h1 ⊢; omega),
      getD_take_of_lt _ _ _ _ (by unfold alignedLen at h1 ⊢; omega)]
  · intro r hr
    rw [extract_filings_for_company, List.mem_filterMap] at hr
    obtain ⟨i, _, hf⟩ := hr
    exact extractAt_form_year hf

/-- Witness for C7: a response whose four arrays have lengths 3, 2, 2, 2 is
truncated to two aligned indexes; index 0 (allow-listed form, 2023 date)
survives, index 1 ("SC 13G") is filtered, and the surviving record's form
and year satisfy the filters. -/
theorem C7_truncation_and_filters_witness :
    extract_filings_for_company "AAPL".toList "0000320193".toList "Tech".toList
        ⟨["10-K".toList, "SC 13G".toList, "10-Q".toList],
         ["2023-11-03".toList, "2012-02-14".toList],
         ["0000320193-23-000106".toList, "0000320193-12-000007".toList],
         ["aapl-20230930.htm".toList, "x.htm".toList]⟩
      = extract_filings_for_company "AAPL".toList "0000320193".toList "Tech".toList
          (truncateSubmissions
            ⟨["10-K".toList, "SC 13G".toList, "10-Q".toList],
             ["2023-11-03".toList, "2012-02-14".toList],
             ["0000320193-23-000106".toList, "0000320193-12-000007".toList],
             ["aapl-20230930.htm".toList, "x.htm".toList]⟩)
    ∧ ("10-K".toList ∈ FORMS_TO_INCLUDE
        ∧ in_year_range "2023-11-03".toList = true) := by
  have h := C7_truncation_and_filters "AAPL".toList "0000320193".toList
    "Tech".toList
    ⟨["10-K".toList, "SC 13G".toList, "10-Q".toList],
     ["2023-11-03".toList, "2012-02-14".toList],
     ["0000320193-23-000106".toList, "0000320193-12-000007".toList],
     ["aapl-20230930.htm".toList, "x.htm".toList]⟩
  refine ⟨h.1, ?_⟩
  have h2 := h.2
  have hmem : (⟨"AAPL".toList, pad_cik "0000320193".toList, "Tech".toList,
      "10-K".toList, "2023-11-03".toList, "0000320193-23-000106".toList,
      "aapl-20230930.htm".toList,
      (EDGAR_URL_BASE ++ "320193".toList ++ ['/']
        ++ "000032019323000106".toList ++ ['/']
        ++ "aapl-20230930.htm".toList)⟩ : Filing)
      ∈ extract_filings_for_company "AAPL".toList "0000320193".toList "Tech".toList
        ⟨["10-K".toList, "SC 13G".toList, "10-Q".toList],
         ["2023-11-03".toList, "2012-02-14".toList],
         ["0000320193-23-000106".toList, "0000320193-12-000007".toList],
         ["aapl-20230930.htm".toList, "x.htm".toList]⟩ := by decide
  exact h2 _ hmem
